import Mathlib

/-!
# Verification of the Big-O-Solution in-memory key-value store

Shallow embedding of the Go sources:
* `internal/storage/storage_engine.go` — the segmented hash table
  (`NewSegmentedHashTable`, `Get`, `Put`, `Delete`, `Size`, `MaxSize`, `fnv1a`);
* `internal/api_server.go` — the HTTP `handlePut` update flow and the
  byte-buffer pool (`BytePool.Put`, `PoolManager`).

Machine integers are modelled as `Nat`/`Int` with explicit wrapping
(`% 2^64` for Go `uint64`, two's-complement wrapping for Go `int`/`int64`)
at every operation where Go arithmetic can wrap.  Go `panic`s (out-of-range
slice indexing, `make` with a negative length) are modelled by `Option`:
`none` is a panic.  Mutation of the receiver is modelled by returning the
updated structure; the sequential semantics of each operation is the body of
the Go function with the lock operations erased (claims are stated for
sequential, non-interleaved executions only).
-/

namespace BigO

/-- `2^64`, the modulus of Go's `uint64` arithmetic. -/
def U64 : Nat := 2 ^ 64

/-- Two's-complement wrap-around of Go `int` (64-bit) arithmetic. -/
def wrapI64 (x : Int) : Int := (x + 2 ^ 63) % 2 ^ 64 - 2 ^ 63

/-- The bytes of a Go string (`s[i]` in Go indexes the UTF-8 bytes). -/
def strBytes (s : String) : List Nat :=
  (s.data.flatMap String.utf8EncodeChar).map (fun b => b.toNat)

/-- Go `len(s)` for a string: its length in UTF-8 bytes. -/
def keyLen (s : String) : Nat := s.utf8ByteSize

/-- Go `len` of a `uuid.UUID` value.  `uuid.UUID` is the fixed-size array
type `[16]byte`, so `len(entry.Id)` is `16` for every entry. -/
def uuidLen : Nat := 16

/-- `DataEntry` from `storage_engine.go`.  `Id` (a `uuid.UUID`, i.e. a
16-byte array) is modelled by its 128-bit value; the three `float32`
measurement fields are modelled by their 32-bit patterns as `Nat` — the
program only ever copies them, never computes with them.
`ModificationCount` is a Go `int` (64-bit); the one operation performed on
it, the handler's `++`, is modelled with two's-complement wrap-around
(`wrapI64`), and every value the program can hold lies in
`[-2^63, 2^63)`.  `LastUpdated` is an `int64` nanosecond timestamp; the
store only ever assigns it. -/
structure DataEntry where
  id : Nat
  seismicActivity : Nat
  temperatureC : Nat
  radiationLevel : Nat
  locationId : String
  modificationCount : Int
  lastUpdated : Int
deriving DecidableEq, Repr

/-- The two error values of `storage_engine.go`:
`ErrKeyNotFound` and `ErrInsufficientMemory`. -/
inductive StoreErr where
  | keyNotFound
  | insufficientMemory
deriving DecidableEq, Repr

instance {e a : Type} [DecidableEq e] [DecidableEq a] : DecidableEq (Except e a) := fun x y =>
  match x, y with
  | Except.ok u, Except.ok v =>
    if h : u = v then isTrue (by rw [h]) else isFalse (by simp [h])
  | Except.error u, Except.error v =>
    if h : u = v then isTrue (by rw [h]) else isFalse (by simp [h])
  | Except.ok _, Except.error _ => isFalse (by simp)
  | Except.error _, Except.ok _ => isFalse (by simp)

/-- A segment's `data map[string]DataEntry`, as an association list. -/
abbrev SegMap := List (String × DataEntry)

/-- Go map read `m[k]`. -/
def mapLookup : SegMap → String → Option DataEntry
  | [], _ => none
  | (k', v) :: rest, k => if k' = k then some v else mapLookup rest k

/-- Go map write `m[k] = v`. -/
def mapInsert : SegMap → String → DataEntry → SegMap
  | [], k, v => [(k, v)]
  | (k', v') :: rest, k, v =>
    if k' = k then (k, v) :: rest else (k', v') :: mapInsert rest k v

/-- Go map `delete(m, k)` (keys are unique in every reachable map). -/
def mapErase : SegMap → String → SegMap
  | [], _ => []
  | (k', v') :: rest, k => if k' = k then rest else (k', v') :: mapErase rest k

/-- `SegmentedHashTable`.  The `sync` locks are erased (sequential model);
`segmentMask`, `maxSize` and `currentSize` are Go `uint64` values. -/
structure SegmentedHashTable where
  segments : List SegMap
  segmentMask : Nat
  maxSize : Nat
  currentSize : Nat
deriving DecidableEq, Repr

/-- `fnv1a` from `storage_engine.go`: FNV-1a over the key's bytes with
`uint64` wrap-around multiplication. -/
def fnv1a (s : String) : Nat :=
  (strBytes s).foldl (fun h b => ((h ^^^ b) * 0x100000001b3) % U64) 0xcbf29ce484222325

/-- The round-up-to-a-power-of-two normalization at the top of
`NewSegmentedHashTable` (lines 40–48), on Go's 64-bit `int`:
decrement, five or-shift smearing steps (`>>1,2,4,8,16`), increment.
`>>` on a negative Go int is an arithmetic shift, which is exactly
`Int.shiftRight`'s behaviour; `|` is `Int.lor` on two's complement. -/
def roundSegments (numSegments : Int) : Int :=
  if numSegments ≤ 0 ∨ Int.land numSegments (wrapI64 (numSegments - 1)) ≠ 0 then
    let n0 := wrapI64 (numSegments - 1)
    let n1 := Int.lor n0 (n0 >>> (1 : Int))
    let n2 := Int.lor n1 (n1 >>> (2 : Int))
    let n3 := Int.lor n2 (n2 >>> (4 : Int))
    let n4 := Int.lor n3 (n3 >>> (8 : Int))
    let n5 := Int.lor n4 (n4 >>> (16 : Int))
    wrapI64 (n5 + 1)
  else numSegments

/-- `NewSegmentedHashTable(numSegments, maxSizeBytes)`.
`make([]*segment, n)` panics when `n` is negative (`none`); otherwise all
segments start as empty maps.  `uint64(numSegments - 1)` is the Go integer
conversion, i.e. reduction mod `2^64`. -/
def NewSegmentedHashTable (numSegments : Int) (maxSizeBytes : Nat) :
    Option SegmentedHashTable :=
  let n := roundSegments numSegments
  if n < 0 then none
  else some
    { segments := List.replicate n.toNat []
      segmentMask := ((n - 1) % (2 ^ 64 : Int)).toNat
      maxSize := maxSizeBytes
      currentSize := 0 }

/-- The index computed by `getSegment`: `fnv1a(key) & sht.segmentMask`. -/
def getSegmentIdx (sht : SegmentedHashTable) (key : String) : Nat :=
  fnv1a key &&& sht.segmentMask

/-- `Get`.  `sht.segments[h&sht.segmentMask]` panics when the index is out
of range (`none`); otherwise the entry is returned by value if present,
else `ErrKeyNotFound`. -/
def Get (sht : SegmentedHashTable) (key : String) :
    Option (Except StoreErr DataEntry) :=
  (sht.segments[getSegmentIdx sht key]?).map fun seg =>
    match mapLookup seg key with
    | some entry => Except.ok entry
    | none => Except.error StoreErr.keyNotFound

/-- `Put` (lines 81–119), translated line by line; the extra timestamp
argument `now` stands for `time.Now().UnixNano()`.

Note the faithful translation of line 97–101: the outer `exists := false`
is *shadowed* by the `if oldEntry, exists := segment.data[key]; exists`
statement, so the outer variable (`exists_` below) is still `false` when
the size-adjustment branches at lines 103–113 read it, and the
`else if exists` decrement branch is dead code. -/
def Put (sht : SegmentedHashTable) (key : String) (entry : DataEntry)
    (now : Int) : Option (SegmentedHashTable × Option StoreErr) :=
  if sht.currentSize ≥ sht.maxSize then
    some (sht, some StoreErr.insufficientMemory)
  else
    match sht.segments[getSegmentIdx sht key]? with
    | none => none
    | some seg =>
      let entrySize : Nat := 100 + keyLen key + uuidLen
      let exists_ := false
      let oldSize : Nat :=
        match mapLookup seg key with
        | some _oldEntry => 100 + keyLen key + uuidLen
        | none => 0
      let stored := { entry with lastUpdated := now }
      let newSegs := sht.segments.set (getSegmentIdx sht key) (mapInsert seg key stored)
      if entrySize > oldSize then
        if (sht.currentSize + (entrySize - oldSize)) % U64 > sht.maxSize then
          some (sht, some StoreErr.insufficientMemory)
        else
          some ({ sht with
                    currentSize := (sht.currentSize + (entrySize - oldSize)) % U64
                    segments := newSegs }, none)
      else if exists_ then
        some ({ sht with
                  currentSize := (sht.currentSize + (U64 - (oldSize - entrySize) % U64)) % U64
                  segments := newSegs }, none)
      else
        some ({ sht with
                  currentSize := (sht.currentSize + entrySize) % U64
                  segments := newSegs }, none)

/-- `Delete` (lines 121–137). -/
def Delete (sht : SegmentedHashTable) (key : String) :
    Option (SegmentedHashTable × Option StoreErr) :=
  match sht.segments[getSegmentIdx sht key]? with
  | none => none
  | some seg =>
    match mapLookup seg key with
    | some _entry =>
      let entrySize : Nat := 100 + keyLen key + uuidLen
      some ({ sht with
                currentSize := (sht.currentSize + (U64 - entrySize % U64)) % U64
                segments := sht.segments.set (getSegmentIdx sht key) (mapErase seg key) },
            none)
    | none => some (sht, some StoreErr.keyNotFound)

/-- `Size()`: the current usage counter. -/
def Size (sht : SegmentedHashTable) : Nat := sht.currentSize

/-- `MaxSize()`: the capacity ceiling. -/
def MaxSize (sht : SegmentedHashTable) : Nat := sht.maxSize

/-! ## The HTTP boundary (`api_server.go`) -/

/-- `RequestData`: the decoded PUT body
`{id, seismic_activity, temperature_c, radiation_level}`. -/
structure RequestData where
  id : String
  seismicActivity : Nat
  temperatureC : Nat
  radiationLevel : Nat
deriving DecidableEq, Repr

/-- The zero value of `RequestData`, which is what `reqData` still holds
when `d.Decode(&reqData)` fails (its error is discarded at line 101). -/
def zeroRequestData : RequestData :=
  { id := "", seismicActivity := 0, temperatureC := 0, radiationLevel := 0 }

/-- The response as the client sees it.  `net/http` honours only the first
`WriteHeader` on a response (later calls are logged and ignored), so the
status is the first code written. -/
structure HttpResponse where
  status : Option Nat
deriving DecidableEq, Repr

/-- A `WriteHeader` call: records the code only if none was written yet.
`http.Error(w, msg, code)` calls `WriteHeader code`. -/
def writeStatus (r : HttpResponse) (code : Nat) : HttpResponse :=
  if r.status.isSome then r else { status := some code }

/-- Decides whether `c` is a hexadecimal digit. -/
def isHexDigit (c : Char) : Bool :=
  c.isDigit || ('a' ≤ c && c ≤ 'f') || ('A' ≤ c && c ≤ 'F')

/-- Numeric value of a hexadecimal digit. -/
def hexVal (c : Char) : Nat :=
  if c.isDigit then c.toNat - 48
  else if 'a' ≤ c ∧ c ≤ 'f' then c.toNat - 87
  else c.toNat - 55

/-- Splits a character list at every `-`. -/
def dashSplit : List Char → List (List Char)
  | [] => [[]]
  | c :: rest =>
    let r := dashSplit rest
    if c = '-' then [] :: r
    else (c :: r.headD []) :: r.tail

/-- Modelled from the spec: `uuid.Parse` comes from the external
`github.com/google/uuid` module, which is not part of this repository.
The spec says only that `id` "must parse as a well-formed unique
identifier, else the request is rejected" and that the identifier is
128-bit; we model the canonical textual form, five dash-separated groups
of 8, 4, 4, 4 and 12 hexadecimal digits, returning the 128-bit value on
success and `none` on failure.  (On failure the Go call also returns the
zero `uuid.UUID`, which the buggy handler goes on to use; the model
applies `.getD 0` at the use site for that.) -/
def uuidParse (s : String) : Option Nat :=
  let groups := dashSplit s.data
  if groups.map List.length = [8, 4, 4, 4, 12] ∧
      groups.all (fun g => g.all isHexDigit) then
    some ((groups.foldl (fun acc g => acc ++ g) []).foldl
      (fun v c => v * 16 + hexVal c) 0)
  else none

/-- Lines 111–112 and 124–126 of `handlePut` for an existing entry: copy
it, increment its modification counter, overwrite the three measurement
fields.  `Id`, `LocationId` and `LastUpdated` are carried over from the
existing entry (the caller-supplied id is ignored on this path).
`data.ModificationCount++` is a Go `int` (64-bit) increment, so it wraps:
from `2^63 - 1` it goes to `-2^63`. -/
def mergeEntry (existing : DataEntry) (req : RequestData) : DataEntry :=
  { existing with
      modificationCount := wrapI64 (existing.modificationCount + 1)
      seismicActivity := req.seismicActivity
      temperatureC := req.temperatureC
      radiationLevel := req.radiationLevel }

/-- Lines 114–118 and 124–126 of `handlePut` for an absent key: a brand-new
entry with counter 1 and the (parsed) caller-supplied id.  `LastUpdated`
keeps the Go zero value until the store stamps it. -/
def freshEntry (id : Nat) (locationID : String) (req : RequestData) : DataEntry :=
  { id := id
    seismicActivity := req.seismicActivity
    temperatureC := req.temperatureC
    radiationLevel := req.radiationLevel
    locationId := locationID
    modificationCount := 1
    lastUpdated := 0 }

/-- Maps the result of `store.Put` to the final response (lines 128–138):
`ErrInsufficientMemory` → 507, any other error → 500, success → 201. -/
def putOutcome (resp : HttpResponse) (res : SegmentedHashTable × Option StoreErr) :
    SegmentedHashTable × HttpResponse :=
  match res.2 with
  | some StoreErr.insufficientMemory => (res.1, writeStatus resp 507)
  | some StoreErr.keyNotFound => (res.1, writeStatus resp 500)
  | none => (res.1, writeStatus resp 201)

/-- `handlePut` (lines 97–139).  `body = none` models a request body that
`json.Decode` fails on — the error is discarded (line 101), so `reqData`
keeps its zero value and the flow continues.  Note the faithful modelling
of the missing `return` after `http.Error(w, "Invalid UUID format", 400)`
at line 105: on a malformed id the 400 status is written and the handler
*continues* into the read-merge-write flow. -/
def handlePut (store : SegmentedHashTable) (locationID : String)
    (body : Option RequestData) (now : Int) :
    Option (SegmentedHashTable × HttpResponse) :=
  let reqData := body.getD zeroRequestData
  let parsed := uuidParse reqData.id
  let id : Nat := parsed.getD 0
  let resp0 : HttpResponse :=
    if parsed.isNone then { status := some 400 } else { status := none }
  (Get store locationID).bind fun got =>
    match got with
    | Except.ok existingData =>
      (Put store locationID (mergeEntry existingData reqData) now).map (putOutcome resp0)
    | Except.error StoreErr.keyNotFound =>
      (Put store locationID (freshEntry id locationID reqData) now).map (putOutcome resp0)
    | Except.error StoreErr.insufficientMemory =>
      some (store, writeStatus resp0 500)

/-! ## Concrete stores and entries for the scenario claims -/

/-- A fresh 16-segment store of capacity `cap` — the result of
`NewSegmentedHashTable(16, cap)` (16 is already a power of two). -/
def store16 (cap : Nat) : SegmentedHashTable :=
  { segments := List.replicate 16 [], segmentMask := 15, maxSize := cap, currentSize := 0 }

theorem newSegmentedHashTable_16 (cap : Nat) :
    NewSegmentedHashTable 16 cap = some (store16 cap) := rfl

/-- A sample entry stored under key `"A-1"` (any 16-byte-identifier entry
has accounted size `100 + 3 + 16 = 119` under this key). -/
def entryA : DataEntry :=
  { id := 7, seismicActivity := 1, temperatureC := 2, radiationLevel := 3
    locationId := "A-1", modificationCount := 1, lastUpdated := 0 }

/-- A sample entry stored under key `"B-2"`. -/
def entryB : DataEntry :=
  { id := 8, seismicActivity := 4, temperatureC := 5, radiationLevel := 6
    locationId := "B-2", modificationCount := 1, lastUpdated := 1 }

/-! ## C1 -/

/-- **C1** (code bug, demonstrated): the claim says a successful put over an
existing key changes `size()` by `s' - s_old`, in particular a same-size
overwrite leaves `size()` unchanged.  The code disagrees: in `Put` the
outer `exists` flag is shadowed at line 99 and stays `false`, so the
decrement branch at lines 109–110 is dead and a same-size overwrite falls
into the `else` branch at line 112, which adds the *full* accounted size
again.  Here: putting the same entry twice under `"A-1"` (accounted size
119 both times, `s' - s_old = 0`) succeeds both times and takes `size()`
from 119 to 238 instead of leaving it at 119. -/
theorem put_same_size_overwrite_double_counts :
    ((Put (store16 1000000) "A-1" entryA 0).bind fun p1 =>
        (Put p1.1 "A-1" entryA 1).map fun p2 => (p1.2, Size p1.1, p2.2, Size p2.1))
      = some (none, 119, none, 238) := by decide

/-! ## C2 -/

/-- **C2** (code bug, demonstrated): the claim says a PUT whose id does not
parse is rejected with no store write.  The code writes the 400 response
but is missing a `return` after `http.Error` at line 105, so it then runs
the whole update flow anyway: on a fresh store, a PUT to `"A-1"` with id
`"not-a-uuid"` answers 400 *and* creates the entry (with the zero UUID the
failed parse returned) in the store. -/
theorem handlePut_invalid_uuid_still_writes :
    (handlePut (store16 1000000) "A-1"
        (some { id := "not-a-uuid", seismicActivity := 5, temperatureC := 6,
                radiationLevel := 7 }) 42).map (fun r => (r.2.status, Get r.1 "A-1"))
      = some (some 400,
          some (Except.ok
            { id := 0, seismicActivity := 5, temperatureC := 6, radiationLevel := 7
              locationId := "A-1", modificationCount := 1, lastUpdated := 42 })) := by
  decide

/-! ## C3 -/

/-- **C3**: if `put` fails with `InsufficientCapacity` — on the fast-path
pre-check (line 83) or on the admission check (line 104) — the store is
returned exactly as it was: `size()`, every segment's contents, and hence
the stored entry (and its `modificationCount`) for the key are unchanged.
Both error returns happen before any assignment to `currentSize` or to the
segment map. -/
theorem put_insufficient_no_mutation (sht : SegmentedHashTable) (key : String)
    (entry : DataEntry) (now : Int) (sht' : SegmentedHashTable)
    (h : Put sht key entry now = some (sht', some StoreErr.insufficientMemory)) :
    sht' = sht ∧ Size sht' = Size sht ∧ sht'.segments = sht.segments ∧
      Get sht' key = Get sht key := by
  have hs : sht' = sht := by
    simp only [Put] at h
    split at h
    · simp only [Option.some.injEq, Prod.mk.injEq] at h
      exact h.1.symm
    · split at h
      · exact Option.noConfusion h
      · split at h
        · split at h
          · simp only [Option.some.injEq, Prod.mk.injEq] at h
            exact h.1.symm
          · simp only [Option.some.injEq, Prod.mk.injEq] at h
            exact absurd h.2 (by simp)
        · split at h
          · simp only [Option.some.injEq, Prod.mk.injEq] at h
            exact absurd h.2 (by simp)
          · simp only [Option.some.injEq, Prod.mk.injEq] at h
            exact absurd h.2 (by simp)
  exact ⟨hs, by rw [hs], by rw [hs], by rw [hs]⟩

/-- Witness for C3: a put on a full store (capacity 0) fails on the fast
path and leaves the store untouched. -/
theorem put_insufficient_no_mutation_witness :
    store16 0 = store16 0 ∧ Size (store16 0) = Size (store16 0) ∧
      (store16 0).segments = (store16 0).segments ∧
      Get (store16 0) "A-1" = Get (store16 0) "A-1" :=
  put_insufficient_no_mutation (store16 0) "A-1" entryA 0 (store16 0) (by decide)

/-! ## C4 -/

/-- The store state reached by the two successful puts of the C4 scenario:
`"A-1"` hashes to segment 6 and `"B-2"` to segment 14 (of 16), and the
usage counter reads `119 + 119 = 238`. -/
def c4s2 : SegmentedHashTable :=
  { segments := ((List.replicate 16 ([] : SegMap)).set 6 [("A-1", entryA)]).set 14 [("B-2", entryB)]
    segmentMask := 15, maxSize := 256, currentSize := 238 }

/-- **C4**: in a fresh 16-segment store of capacity 256, putting `"A-1"`
(accounted size `100 + 3 + 16 = 119`) succeeds with `size() = 119`;
putting `"B-2"` succeeds with `size() = 238`; and *any* third put to a new
key whose accounted size exceeds 18 bytes fails with
`InsufficientCapacity`, leaving the store (hence `size() = 238`) exactly
as it was.  The hypothesis `keyLen key < 2^63` is the invariant of every
Go string (`len` returns a non-negative `int`); without it the `uint64`
admission arithmetic could wrap. -/
theorem capacity_scenario_256 :
    ((Put (store16 256) "A-1" entryA 0).map fun p => (Size p.1, p.2)) = some (119, none) ∧
    ((Put (store16 256) "A-1" entryA 0).bind fun p1 => Put p1.1 "B-2" entryB 1)
        = some (c4s2, none) ∧
    Size c4s2 = 238 ∧
    (∀ (key : String) (e : DataEntry) (t : Int),
      key ≠ "A-1" → key ≠ "B-2" → keyLen key < 2 ^ 63 →
      100 + keyLen key + uuidLen > 18 →
      Put c4s2 key e t = some (c4s2, some StoreErr.insufficientMemory)) := by
  refine ⟨by decide, by decide, by decide, ?_⟩
  intro key e t hA hB hklen hsz
  have hmem : ∀ seg ∈ c4s2.segments, mapLookup seg key = none := by
    have hsegs : c4s2.segments =
        [[], [], [], [], [], [], [("A-1", entryA)], [], [], [], [], [], [], [],
          [("B-2", entryB)], []] := by decide
    intro seg hseg
    rw [hsegs] at hseg
    fin_cases hseg <;> simp [mapLookup, Ne.symm hA, Ne.symm hB]
  have hidx : getSegmentIdx c4s2 key < c4s2.segments.length := by
    have h15 : getSegmentIdx c4s2 key ≤ 15 := Nat.and_le_right
    have h16 : c4s2.segments.length = 16 := by decide
    omega
  have hget : c4s2.segments[getSegmentIdx c4s2 key]? =
      some (c4s2.segments[getSegmentIdx c4s2 key]) := List.getElem?_eq_getElem hidx
  have hlook : mapLookup (c4s2.segments[getSegmentIdx c4s2 key]) key = none :=
    hmem _ (List.getElem_mem hidx)
  unfold Put
  rw [if_neg (show ¬ (c4s2.currentSize ≥ c4s2.maxSize) by decide), hget]
  dsimp only
  rw [hlook]
  dsimp only
  have hmod : (c4s2.currentSize + (100 + keyLen key + uuidLen - 0)) % U64
      = 238 + (100 + keyLen key + 16) := by
    have hlt : c4s2.currentSize + (100 + keyLen key + uuidLen - 0) < U64 := by
      simp only [U64, uuidLen]
      have h2 : (2:Nat) ^ 63 < 2 ^ 64 := by norm_num
      have h3 : c4s2.currentSize = 238 := rfl
      omega
    rw [Nat.mod_eq_of_lt hlt]
    rfl
  rw [if_pos (show 100 + keyLen key + uuidLen > 0 by simp [uuidLen]), if_pos]
  rw [hmod]
  have h3 : c4s2.maxSize = 256 := rfl
  omega

/-- Witness for C4's third-put clause: the concrete key `"C-3"` (accounted
size 119 > 18) is rejected and the store is unchanged. -/
theorem capacity_scenario_256_witness :
    Put c4s2 "C-3" entryA 2 = some (c4s2, some StoreErr.insufficientMemory) :=
  capacity_scenario_256.2.2.2 "C-3" entryA 2 (by decide) (by decide) (by decide) (by decide)

/-! ## C5 and C10: the power-of-two normalization -/

/-- One `x |= x >> k` smearing step of the round-up routine, on ℕ
(the value is nonnegative throughout when the requested count is ≥ 1). -/
def orShift (k x : Nat) : Nat := x ||| (x >>> k)

/-- The five or-shift steps of `roundSegments` on a nonnegative value. -/
def natSmear (m : Nat) : Nat :=
  orShift 16 (orShift 8 (orShift 4 (orShift 2 (orShift 1 m))))

/-- On a negative (two's-complement) value `-[a+1]`, the `x |= x >> k` step
acts as `a &&& (a >>> k)` on the complement `a`. -/
def andShift (k x : Nat) : Nat := x &&& (x >>> k)

/-- The complement-side image of the five or-shift steps for a negative
starting value. -/
def natCrush (a : Nat) : Nat :=
  andShift 16 (andShift 8 (andShift 4 (andShift 2 (andShift 1 a))))

theorem testBit_orShift (k x j : Nat) :
    (orShift k x).testBit j = (x.testBit j || x.testBit (j + k)) := by
  simp [orShift, Nat.testBit_or, Nat.testBit_shiftRight, Nat.add_comm]

theorem orShift_window {t x m : Nat}
    (hx : ∀ j, x.testBit j = true ↔ ∃ d, d < t ∧ m.testBit (j + d) = true) :
    ∀ j, (orShift t x).testBit j = true ↔ ∃ d, d < 2 * t ∧ m.testBit (j + d) = true := by
  intro j
  rw [testBit_orShift]
  simp only [Bool.or_eq_true, hx]
  constructor
  · rintro (⟨d, hd, hb⟩ | ⟨d, hd, hb⟩)
    · exact ⟨d, by omega, hb⟩
    · refine ⟨t + d, by omega, ?_⟩
      rw [show j + (t + d) = j + t + d by omega]
      exact hb
  · rintro ⟨d, hd, hb⟩
    by_cases hdt : d < t
    · exact Or.inl ⟨d, hdt, hb⟩
    · refine Or.inr ⟨d - t, by omega, ?_⟩
      rw [show j + t + (d - t) = j + d by omega]
      exact hb

theorem natSmear_window (m : Nat) (j : Nat) :
    (natSmear m).testBit j = true ↔ ∃ d, d < 32 ∧ m.testBit (j + d) = true := by
  have h0 : ∀ j, m.testBit j = true ↔ ∃ d, d < 1 ∧ m.testBit (j + d) = true := by
    intro i
    constructor
    · intro h
      exact ⟨0, by omega, by simpa using h⟩
    · rintro ⟨d, hd, hb⟩
      have hd0 : d = 0 := by omega
      subst hd0
      simpa using hb
  have h1 : ∀ j, (orShift 1 m).testBit j = true ↔ ∃ d, d < 2 ∧ m.testBit (j + d) = true := by
    have := orShift_window h0
    simpa using this
  have h2 : ∀ j, (orShift 2 (orShift 1 m)).testBit j = true ↔
      ∃ d, d < 4 ∧ m.testBit (j + d) = true := by
    have := orShift_window h1
    simpa using this
  have h4 : ∀ j, (orShift 4 (orShift 2 (orShift 1 m))).testBit j = true ↔
      ∃ d, d < 8 ∧ m.testBit (j + d) = true := by
    have := orShift_window h2
    simpa using this
  have h8 : ∀ j, (orShift 8 (orShift 4 (orShift 2 (orShift 1 m)))).testBit j = true ↔
      ∃ d, d < 16 ∧ m.testBit (j + d) = true := by
    have := orShift_window h4
    simpa using this
  have h16 := orShift_window h8
  simpa [natSmear] using h16 j

theorem testBit_size_pred (m : Nat) (h : 1 ≤ m) : m.testBit (m.size - 1) = true := by
  have hub : m < 2 ^ m.size := Nat.lt_size_self m
  have hpos : 0 < m.size := Nat.size_pos.mpr h
  have hlb : 2 ^ (m.size - 1) ≤ m := Nat.lt_size.mp (by omega)
  obtain ⟨r, hr⟩ : ∃ r, m = 2 ^ (m.size - 1) + r := ⟨m - 2 ^ (m.size - 1), by omega⟩
  have h2 : 2 ^ m.size = 2 * 2 ^ (m.size - 1) := by
    rw [← pow_succ']
    congr 1
    omega
  have hrlt : r < 2 ^ (m.size - 1) := by omega
  have key : (2 ^ (m.size - 1) + r).testBit (m.size - 1) = true := by
    rw [Nat.testBit_two_pow_add_eq, Nat.testBit_lt_two_pow hrlt]
    rfl
  rwa [← hr] at key

theorem natSmear_eq (m : Nat) (h1 : 1 ≤ m) (h32 : m < 2 ^ 32) :
    natSmear m = 2 ^ m.size - 1 := by
  have hsle : m.size ≤ 32 := Nat.size_le.mpr h32
  apply Nat.eq_of_testBit_eq
  intro j
  have hw := natSmear_window m j
  rw [Nat.testBit_two_pow_sub_one]
  by_cases hj : j < m.size
  · have hT : (natSmear m).testBit j = true := by
      rw [hw]
      refine ⟨m.size - 1 - j, by omega, ?_⟩
      rw [show j + (m.size - 1 - j) = m.size - 1 by omega]
      exact testBit_size_pred m h1
    rw [hT]
    simp [hj]
  · have hF : (natSmear m).testBit j = false := by
      cases hb : (natSmear m).testBit j
      · rfl
      · exfalso
        obtain ⟨d, hd, hbit⟩ := hw.mp hb
        have hge := Nat.testBit_implies_ge hbit
        have hml : m < 2 ^ m.size := Nat.lt_size_self m
        have hmono : 2 ^ m.size ≤ 2 ^ (j + d) :=
          Nat.pow_le_pow_right (by norm_num) (by omega)
        omega
    rw [hF]
    simp [hj]

theorem land_even_odd (a b : Nat) : (2 * a) &&& (2 * b + 1) = 2 * (a &&& b) := by
  apply Nat.eq_of_testBit_eq
  intro j
  cases j with
  | zero =>
    have e1 : (2 * a) % 2 = 0 := by omega
    have e2 : (2 * (a &&& b)) % 2 = 0 := by omega
    simp [Nat.testBit_and, Nat.testBit_zero, e1, e2]
  | succ j =>
    have e1 : 2 * a / 2 = a := by omega
    have e2 : (2 * b + 1) / 2 = b := by omega
    have e3 : 2 * (a &&& b) / 2 = a &&& b := by omega
    rw [Nat.testBit_and, Nat.testBit_succ, Nat.testBit_succ, Nat.testBit_succ,
      e1, e2, e3, Nat.testBit_and]

theorem land_odd_even (a b : Nat) : (2 * a + 1) &&& (2 * b) = 2 * (a &&& b) := by
  apply Nat.eq_of_testBit_eq
  intro j
  cases j with
  | zero =>
    have e1 : (2 * b) % 2 = 0 := by omega
    have e2 : (2 * (a &&& b)) % 2 = 0 := by omega
    simp [Nat.testBit_and, Nat.testBit_zero, e1, e2]
  | succ j =>
    have e1 : (2 * a + 1) / 2 = a := by omega
    have e2 : 2 * b / 2 = b := by omega
    have e3 : 2 * (a &&& b) / 2 = a &&& b := by omega
    rw [Nat.testBit_and, Nat.testBit_succ, Nat.testBit_succ, Nat.testBit_succ,
      e1, e2, e3, Nat.testBit_and]

theorem pow2_of_land_pred (a : Nat) (h1 : 1 ≤ a) (h0 : a &&& (a - 1) = 0) :
    ∃ i, a = 2 ^ i := by
  induction a using Nat.strong_induction_on with
  | _ a ih =>
    rcases Nat.even_or_odd a with he | ho
    · obtain ⟨m, hm⟩ := he
      have hm2 : a = 2 * m := by omega
      have hm1 : 1 ≤ m := by omega
      have hsub : a - 1 = 2 * (m - 1) + 1 := by omega
      have hland : a &&& (a - 1) = 2 * (m &&& (m - 1)) := by
        rw [hsub, hm2]
        exact land_even_odd m (m - 1)
      have hz : m &&& (m - 1) = 0 := by omega
      obtain ⟨i, hi⟩ := ih m (by omega) hm1 hz
      exact ⟨i + 1, by rw [hm2, hi, pow_succ]; ring⟩
    · obtain ⟨m, hm⟩ := ho
      by_cases hm0 : m = 0
      · exact ⟨0, by omega⟩
      · exfalso
        have hsub : a - 1 = 2 * m := by omega
        have hland : a &&& (a - 1) = 2 * (m &&& m) := by
          rw [hsub, hm]
          exact land_odd_even m m
        rw [Nat.and_self] at hland
        omega



theorem wrapI64_eq_self (x : Int) (hlo : -9223372036854775808 ≤ x)
    (hhi : x < 9223372036854775808) : wrapI64 x = x := by
  have e1 : (2 : Int) ^ 63 = 9223372036854775808 := by norm_num
  have e2 : (2 : Int) ^ 64 = 18446744073709551616 := by norm_num
  simp only [wrapI64, e1, e2]
  omega

set_option maxRecDepth 8000 in
theorem roundSegments_smear_ofNat (n : Int) (m : Nat)
    (hcond : n ≤ 0 ∨ Int.land n (wrapI64 (n - 1)) ≠ 0)
    (hm : wrapI64 (n - 1) = (m : Int)) :
    roundSegments n = wrapI64 ((natSmear m : Int) + 1) := by
  have hcond2 : n ≤ 0 ∨ Int.land n (m : Int) ≠ 0 := by rwa [hm] at hcond
  simp only [roundSegments, hm]
  rw [if_pos hcond2]
  rfl

set_option maxRecDepth 8000 in
theorem roundSegments_smear_negSucc (n : Int) (a : Nat)
    (hcond : n ≤ 0 ∨ Int.land n (wrapI64 (n - 1)) ≠ 0)
    (hm : wrapI64 (n - 1) = Int.negSucc a) :
    roundSegments n = wrapI64 (Int.negSucc (natCrush a) + 1) := by
  have hcond2 : n ≤ 0 ∨ Int.land n (Int.negSucc a) ≠ 0 := by rwa [hm] at hcond
  simp only [roundSegments, hm]
  rw [if_pos hcond2]
  rfl

theorem shiftRight_mono {x y : Nat} (k : Nat) (h : x ≤ y) : x >>> k ≤ y >>> k := by
  rw [Nat.shiftRight_eq_div_pow, Nat.shiftRight_eq_div_pow]
  exact Nat.div_le_div_right h

theorem natCrush_le (a : Nat) : natCrush a ≤ a >>> 31 := by
  have c1 : andShift 1 a ≤ a >>> 1 := Nat.and_le_right
  have c2 : andShift 2 (andShift 1 a) ≤ a >>> 3 := by
    calc andShift 2 (andShift 1 a) ≤ (andShift 1 a) >>> 2 := Nat.and_le_right
      _ ≤ (a >>> 1) >>> 2 := shiftRight_mono 2 c1
      _ = a >>> 3 := by rw [← Nat.shiftRight_add]
  have c3 : andShift 4 (andShift 2 (andShift 1 a)) ≤ a >>> 7 := by
    calc andShift 4 (andShift 2 (andShift 1 a))
        ≤ (andShift 2 (andShift 1 a)) >>> 4 := Nat.and_le_right
      _ ≤ (a >>> 3) >>> 4 := shiftRight_mono 4 c2
      _ = a >>> 7 := by rw [← Nat.shiftRight_add]
  have c4 : andShift 8 (andShift 4 (andShift 2 (andShift 1 a))) ≤ a >>> 15 := by
    calc andShift 8 (andShift 4 (andShift 2 (andShift 1 a)))
        ≤ (andShift 4 (andShift 2 (andShift 1 a))) >>> 8 := Nat.and_le_right
      _ ≤ (a >>> 7) >>> 8 := shiftRight_mono 8 c3
      _ = a >>> 15 := by rw [← Nat.shiftRight_add]
  calc natCrush a
      ≤ (andShift 8 (andShift 4 (andShift 2 (andShift 1 a)))) >>> 16 := Nat.and_le_right
    _ ≤ (a >>> 15) >>> 16 := shiftRight_mono 16 c4
    _ = a >>> 31 := by rw [← Nat.shiftRight_add]

theorem natCrush_eq_zero (a : Nat) (h : a < 2 ^ 31) : natCrush a = 0 := by
  have h31 : a >>> 31 = 0 := by
    rw [Nat.shiftRight_eq_div_pow]
    exact Nat.div_eq_of_lt h
  have := natCrush_le a
  omega

/-- `c` is the least power of two that is at least `n` — the property the
spec asserts of the normalized segment count. -/
def isLeastPow2Ge (n c : Nat) : Prop :=
  (∃ i, c = 2 ^ i) ∧ n ≤ c ∧ ∀ j, (∃ i, j = 2 ^ i) → n ≤ j → c ≤ j

theorem roundSegments_pos (n : Int) (h1 : 1 ≤ n) (h32 : n ≤ 2 ^ 32) :
    ∃ c : Nat, roundSegments n = (c : Int) ∧ isLeastPow2Ge n.toNat c ∧
      1 ≤ c ∧ c ≤ 2 ^ 32 := by
  have hna : n = (n.toNat : Int) := by omega
  set a := n.toNat with ha
  have ha1 : 1 ≤ a := by omega
  have ha32 : a ≤ 2 ^ 32 := by omega
  have hsub : wrapI64 (n - 1) = ((a - 1 : Nat) : Int) := by
    rw [wrapI64_eq_self (n - 1) (by omega) (by omega)]
    omega
  have hlandNat : Int.land (a : Int) ((a - 1 : Nat) : Int)
      = ((a &&& (a - 1) : Nat) : Int) := rfl
  by_cases hl : a &&& (a - 1) = 0
  · have hcond : ¬ (n ≤ 0 ∨ Int.land n (wrapI64 (n - 1)) ≠ 0) := by
      push_neg
      refine ⟨by omega, ?_⟩
      rw [hsub, hna, hlandNat, hl]
      rfl
    refine ⟨a, ?_, ?_, ha1, ha32⟩
    · simp only [roundSegments, if_neg hcond]
      exact hna
    · obtain ⟨i, hi⟩ := pow2_of_land_pred a ha1 hl
      exact ⟨⟨i, hi⟩, Nat.le_refl a, fun j _ hle => hle⟩
  · have hcond : n ≤ 0 ∨ Int.land n (wrapI64 (n - 1)) ≠ 0 := by
      right
      rw [hsub, hna, hlandNat]
      simpa using hl
    have hm1 : 1 ≤ a - 1 := by
      have hne : a ≠ 1 := by
        intro h
        apply hl
        rw [h]
        rfl
      omega
    have hm32 : a - 1 < 2 ^ 32 := by omega
    have hsm := natSmear_eq (a - 1) hm1 hm32
    have hLle : (a - 1).size ≤ 32 := Nat.size_le.mpr hm32
    have hpow : (2 : Nat) ^ (a - 1).size ≤ 2 ^ 32 := Nat.pow_le_pow_right (by norm_num) hLle
    have hpow1 : 1 ≤ (2 : Nat) ^ (a - 1).size := Nat.one_le_two_pow
    have heq := roundSegments_smear_ofNat n (a - 1) hcond hsub
    refine ⟨2 ^ (a - 1).size, ?_, ?_, hpow1, hpow⟩
    · rw [heq, hsm]
      have hplus : ((2 ^ (a - 1).size - 1 : Nat) : Int) + 1
          = ((2 ^ (a - 1).size : Nat) : Int) := by omega
      rw [hplus]
      apply wrapI64_eq_self
      · omega
      · have h32n : (2 : Nat) ^ 32 = 4294967296 := by norm_num
        omega
    · refine ⟨⟨(a - 1).size, rfl⟩, ?_, ?_⟩
      · have hls := Nat.lt_size_self (a - 1)
        omega
      · rintro j ⟨i, rfl⟩ hle
        have hlt : a - 1 < 2 ^ i := by omega
        exact Nat.pow_le_pow_right (by norm_num) (Nat.size_le.mpr hlt)



theorem roundSegments_nonpos (n : Int) (hlo : 1 - 2 ^ 31 ≤ n) (hhi : n ≤ 0) :
    roundSegments n = 0 := by
  have hcond : n ≤ 0 ∨ Int.land n (wrapI64 (n - 1)) ≠ 0 := Or.inl hhi
  set a : Nat := (-n).toNat with ha
  have ha31 : a < 2 ^ 31 := by omega
  have hm : wrapI64 (n - 1) = Int.negSucc a := by
    rw [wrapI64_eq_self (n - 1) (by omega) (by omega), Int.negSucc_eq]
    omega
  rw [roundSegments_smear_negSucc n a hcond hm, natCrush_eq_zero a ha31]
  decide

/-- The store produced by `NewSegmentedHashTable` for any mildly
non-positive requested count: zero segments, segment mask `2^64 - 1`. -/
def brokenStore (cap : Nat) : SegmentedHashTable :=
  { segments := [], segmentMask := 2 ^ 64 - 1, maxSize := cap, currentSize := 0 }

/-- **C10** (amended): for every requested segment count `n` with
`1 - 2^31 ≤ n ≤ 0`, construction yields a store with zero segments and
segment mask `2^64 - 1`, and the key-to-segment lookup is not total:
every `Get` and `Delete` panics with an out-of-bounds slice access on any
key, and so does every `Put` — except on a store of capacity 0, where the
fast-path capacity check rejects the put before any segment is touched
(the original claim's "every Put" is wrong for `cap = 0`).  For `n` below
`1 - 2^31` the claim also fails: the 31-position smear can leave the
normalized count negative, so `make` panics and no store is produced at
all (see the counterexample). -/
theorem construction_nonpositive_unusable (n : Int) (cap : Nat)
    (hlo : 1 - 2 ^ 31 ≤ n) (hhi : n ≤ 0) :
    NewSegmentedHashTable n cap = some (brokenStore cap) ∧
    (∀ key, Get (brokenStore cap) key = none) ∧
    (∀ key, Delete (brokenStore cap) key = none) ∧
    (∀ (key : String) (e : DataEntry) (t : Int), 0 < cap →
      Put (brokenStore cap) key e t = none) := by
  refine ⟨?_, fun key => rfl, fun key => rfl, ?_⟩
  · simp only [NewSegmentedHashTable, roundSegments_nonpos n hlo hhi]
    rw [if_neg (by norm_num : ¬ ((0 : Int) < 0))]
    have hmask : (((0 : Int) - 1) % 2 ^ 64).toNat = 2 ^ 64 - 1 := by omega
    rw [hmask]
    rfl
  · intro key e t hcap
    unfold Put
    rw [if_neg (by simpa [brokenStore, Size] using Nat.not_le.mpr hcap)]
    rfl

/-- Witness for C10 at the concrete request `n = 0`, capacity 5. -/
theorem construction_nonpositive_unusable_witness :
    NewSegmentedHashTable 0 5 = some (brokenStore 5) ∧
    (∀ key, Get (brokenStore 5) key = none) ∧
    (∀ key, Delete (brokenStore 5) key = none) ∧
    (∀ (key : String) (e : DataEntry) (t : Int), 0 < 5 →
      Put (brokenStore 5) key e t = none) :=
  construction_nonpositive_unusable 0 5 (by norm_num) (by norm_num)

/-- Counterexample to C10 as stated: at the requested count `1 - 2^62`
the normalization returns `1 - 2^31 < 0`, so `make([]*segment, n)` panics
and construction produces no store at all, zero-segment or otherwise; and
at capacity 0 a subsequent `Put` does *not* perform an out-of-bounds
access — it is rejected by the fast-path capacity check. -/
theorem construction_out_of_range_counterexample :
    NewSegmentedHashTable (1 - 2 ^ 62) 256 = none ∧
    NewSegmentedHashTable 0 0 = some (brokenStore 0) ∧
    Put (brokenStore 0) "A-1" entryA 0
      = some (brokenStore 0, some StoreErr.insufficientMemory) := by
  refine ⟨?_, ?_, ?_⟩
  · have he : (1 - 2 ^ 62 : Int) = -4611686018427387903 := by norm_num
    rw [he]
    decide
  · have h := construction_nonpositive_unusable 0 0 (by norm_num) (by norm_num)
    exact h.1
  · decide

theorem newSegmentedHashTable_pos (n : Int) (cap : Nat) (h1 : 1 ≤ n) (h32 : n ≤ 2 ^ 32) :
    ∃ c : Nat, isLeastPow2Ge n.toNat c ∧ 1 ≤ c ∧ c ≤ 2 ^ 32 ∧
      NewSegmentedHashTable n cap = some
        { segments := List.replicate c []
          segmentMask := c - 1
          maxSize := cap
          currentSize := 0 } := by
  obtain ⟨c, hr, hleast, hc1, hc32⟩ := roundSegments_pos n h1 h32
  refine ⟨c, hleast, hc1, hc32, ?_⟩
  simp only [NewSegmentedHashTable, hr]
  rw [if_neg (by omega : ¬ ((c : Int) < 0))]
  have hmask : (((c : Int) - 1) % 2 ^ 64).toNat = c - 1 := by omega
  have htn : ((c : Int)).toNat = c := by omega
  rw [htn, hmask]

/-- **C5** (amended: the requested count must also be at most `2^32`; the
or-shift cascade stops at `>> 16`, so it only smears 31 bit positions and
mis-rounds larger requests — see the counterexample): for every requested
segment count `1 ≤ n ≤ 2^32` and every capacity, construction succeeds
and yields a store whose segment count is the least power of two at or
above `n`, whose mask is that count minus one, whose segments are all
empty, and whose usage counter is 0. -/
theorem construction_least_pow2 (n : Int) (cap : Nat) (h1 : 1 ≤ n) (h32 : n ≤ 2 ^ 32) :
    (NewSegmentedHashTable n cap).isSome = true ∧
    ∀ s, NewSegmentedHashTable n cap = some s →
      isLeastPow2Ge n.toNat s.segments.length ∧
      s.segmentMask = s.segments.length - 1 ∧
      (∀ seg ∈ s.segments, seg = []) ∧
      Size s = 0 := by
  obtain ⟨c, hleast, hc1, hc32, heq⟩ := newSegmentedHashTable_pos n cap h1 h32
  rw [heq]
  refine ⟨rfl, ?_⟩
  rintro s hs
  injection hs with hs
  subst hs
  refine ⟨?_, ?_, ?_, rfl⟩
  · simpa [List.length_replicate] using hleast
  · simp [List.length_replicate]
  · intro seg hseg
    exact List.eq_of_mem_replicate hseg

/-- Witness for C5 at the spec's own example: a request of 10 (with
capacity 256) yields 16 segments and mask 15. -/
theorem construction_least_pow2_witness :
    (NewSegmentedHashTable 10 256).isSome = true ∧
    ∀ s, NewSegmentedHashTable 10 256 = some s →
      isLeastPow2Ge (10 : Int).toNat s.segments.length ∧
      s.segmentMask = s.segments.length - 1 ∧
      (∀ seg ∈ s.segments, seg = []) ∧
      Size s = 0 :=
  construction_least_pow2 10 256 (by norm_num) (by norm_num)

/-- Counterexample to C5 as stated: for the requested count `2^32 + 1`
the cascade misses the bit 31 positions below the top bit, producing
`2^33 - 1` segments — not a power of two at all, let alone the least one
at or above the request. -/
theorem construction_round_up_counterexample :
    ((NewSegmentedHashTable (2 ^ 32 + 1) 256).map fun s => s.segments.length)
      = some (2 ^ 33 - 1) ∧
    ¬ isLeastPow2Ge ((2 : Int) ^ 32 + 1).toNat (2 ^ 33 - 1) := by
  constructor
  · have he : ((2 : Int) ^ 32 + 1) = 4294967297 := by norm_num
    have hr : roundSegments 4294967297 = (8589934591 : Int) := by decide
    rw [he]
    simp only [NewSegmentedHashTable, hr]
    rw [if_neg (by norm_num : ¬ ((8589934591 : Int) < 0))]
    show some (List.replicate ((8589934591 : Int)).toNat ([] : SegMap)).length
      = some (2 ^ 33 - 1)
    rw [List.length_replicate]
    have ht : (8589934591 : Int).toNat = 8589934591 := rfl
    rw [ht]
    norm_num
  · rintro ⟨⟨i, hi⟩, -, -⟩
    rcases i with _ | j
    · norm_num at hi
    · have h2 : (2 : Nat) ^ (j + 1) = 2 * 2 ^ j := by rw [pow_succ]; ring
      have h33 : (2 : Nat) ^ 33 = 8589934592 := by norm_num
      omega

/-! ## C6, C7, C8: the read and update flows -/

theorem mapLookup_insert_self (m : SegMap) (k : String) (v : DataEntry) :
    mapLookup (mapInsert m k v) k = some v := by
  induction m with
  | nil => simp [mapInsert, mapLookup]
  | cons p rest ih =>
    obtain ⟨k', v'⟩ := p
    by_cases h : k' = k
    · subst h
      simp [mapInsert, mapLookup]
    · simp [mapInsert, mapLookup, h, ih]

theorem mapLookup_insert_ne (m : SegMap) (k k' : String) (v : DataEntry)
    (h : k ≠ k') : mapLookup (mapInsert m k' v) k = mapLookup m k := by
  induction m with
  | nil => simp [mapInsert, mapLookup, Ne.symm h]
  | cons p rest ih =>
    obtain ⟨k0, v0⟩ := p
    by_cases h0 : k0 = k'
    · subst h0
      simp [mapInsert, mapLookup, Ne.symm h]
    · simp [mapInsert, mapLookup, h0, ih]

/-- Inversion for `Put`: a non-panicking call either fails with
`ErrInsufficientMemory` leaving the store untouched, or succeeds and
replaces exactly the owning segment's map by its update, leaving the mask
and capacity unchanged. -/
theorem put_inv (sht : SegmentedHashTable) (key : String) (entry : DataEntry)
    (now : Int) (s' : SegmentedHashTable) (r : Option StoreErr)
    (h : Put sht key entry now = some (s', r)) :
    (r = some StoreErr.insufficientMemory ∧ s' = sht) ∨
    (r = none ∧ ∃ seg, sht.segments[getSegmentIdx sht key]? = some seg ∧
      s'.segmentMask = sht.segmentMask ∧ s'.maxSize = sht.maxSize ∧
      s'.segments = sht.segments.set (getSegmentIdx sht key)
        (mapInsert seg key { entry with lastUpdated := now })) := by
  simp only [Put] at h
  split at h
  · simp only [Option.some.injEq, Prod.mk.injEq] at h
    exact Or.inl ⟨h.2.symm, h.1.symm⟩
  · rename_i hfast
    split at h
    · exact Option.noConfusion h
    · rename_i seg hseg
      split at h
      · split at h
        · simp only [Option.some.injEq, Prod.mk.injEq] at h
          exact Or.inl ⟨h.2.symm, h.1.symm⟩
        · simp only [Option.some.injEq, Prod.mk.injEq] at h
          refine Or.inr ⟨h.2.symm, seg, hseg, ?_, ?_, ?_⟩ <;> rw [← h.1] 
      · split at h
        · simp only [Option.some.injEq, Prod.mk.injEq] at h
          refine Or.inr ⟨h.2.symm, seg, hseg, ?_, ?_, ?_⟩ <;> rw [← h.1]
        · simp only [Option.some.injEq, Prod.mk.injEq] at h
          refine Or.inr ⟨h.2.symm, seg, hseg, ?_, ?_, ?_⟩ <;> rw [← h.1]

/-- A successful `Put` stores the caller's entry stamped with the store
clock, and `Get` on the same key returns it. -/
theorem get_after_put (s : SegmentedHashTable) (k : String) (e : DataEntry)
    (t : Int) (s' : SegmentedHashTable)
    (h : Put s k e t = some (s', none)) :
    Get s' k = some (Except.ok { e with lastUpdated := t }) := by
  rcases put_inv s k e t s' none h with ⟨hr, -⟩ | ⟨-, seg, hseg, hmask, -, hsegs⟩
  · exact Option.noConfusion hr
  · have hlen : getSegmentIdx s k < s.segments.length := by
      by_contra hc
      push_neg at hc
      rw [List.getElem?_eq_none hc] at hseg
      exact Option.noConfusion hseg
    unfold Get
    have hidx : getSegmentIdx s' k = getSegmentIdx s k := by
      unfold getSegmentIdx
      rw [hmask]
    rw [hidx, hsegs, List.getElem?_set_self hlen, Option.map_some']
    rw [mapLookup_insert_self]

/-- A `Put` under a different key preserves `KeyNotFound` for `k`. -/
theorem get_put_preserve (s s' : SegmentedHashTable) (k k' : String)
    (e : DataEntry) (t : Int) (r : Option StoreErr) (hne : k ≠ k')
    (hp : Put s k' e t = some (s', r))
    (hg : Get s k = some (Except.error StoreErr.keyNotFound)) :
    Get s' k = some (Except.error StoreErr.keyNotFound) := by
  rcases put_inv s k' e t s' r hp with ⟨-, rfl⟩ | ⟨-, seg, hseg, hmask, -, hsegs⟩
  · exact hg
  · have hidx : getSegmentIdx s' k = getSegmentIdx s k := by
      unfold getSegmentIdx
      rw [hmask]
    unfold Get at hg ⊢
    rw [hidx, hsegs]
    by_cases hii : getSegmentIdx s k' = getSegmentIdx s k
    · have hlen : getSegmentIdx s k' < s.segments.length := by
        by_contra hc
        push_neg at hc
        rw [List.getElem?_eq_none hc] at hseg
        exact Option.noConfusion hseg
      rw [hii] at hseg hlen
      rw [← hii, hii, List.getElem?_set_self hlen, Option.map_some']
      rw [hseg, Option.map_some'] at hg
      have hl : mapLookup seg k = none := by
        rcases hlk : mapLookup seg k with - | v
        · rfl
        · rw [hlk] at hg
          simp at hg
      rw [mapLookup_insert_ne seg k k' _ hne, hl]
    · rw [List.getElem?_set_ne hii]
      exact hg

/-- A sequence of `Put` calls, each given as `(key, entry, timestamp)`;
a put that returns a store error leaves the store unchanged and the
sequence continues, a panic (`none`) aborts it. -/
def runPuts : SegmentedHashTable → List (String × DataEntry × Int) →
    Option SegmentedHashTable
  | s, [] => some s
  | s, (k, e, t) :: rest =>
    match Put s k e t with
    | some p => runPuts p.1 rest
    | none => none

/-- **C7**: (1) on any store built by construction (with a valid request,
`1 ≤ n ≤ 2^32`) and mutated by any sequence of puts to keys other than
`k`, `get(k)` returns `KeyNotFound`; (2) after a successful `put(k, e)` an
immediate `get(k)` returns an entry whose measurement fields (and id and
location) equal `e`'s and whose `lastUpdated` is the store's clock value
`t` — for *every* caller-supplied `e.lastUpdated`, so the timestamp is
stamped by the store, not taken from the caller. -/
theorem get_semantics :
    (∀ (n : Int) (cap : Nat) (l : List (String × DataEntry × Int)) (k : String)
        (s0 s : SegmentedHashTable), 1 ≤ n → n ≤ 2 ^ 32 →
      NewSegmentedHashTable n cap = some s0 → runPuts s0 l = some s →
      (∀ x ∈ l, x.1 ≠ k) →
      Get s k = some (Except.error StoreErr.keyNotFound)) ∧
    (∀ (s : SegmentedHashTable) (k : String) (e : DataEntry) (t : Int)
        (s' : SegmentedHashTable),
      Put s k e t = some (s', none) →
      Get s' k = some (Except.ok { e with lastUpdated := t })) := by
  constructor
  · intro n cap l k s0 s h1 h32 hnew hrun hout
    have h0 : Get s0 k = some (Except.error StoreErr.keyNotFound) := by
      obtain ⟨c, hleast, hc1, hc32, heq⟩ := newSegmentedHashTable_pos n cap h1 h32
      rw [heq] at hnew
      injection hnew with hnew
      subst hnew
      unfold Get
      have hidx : getSegmentIdx
          { segments := List.replicate c ([] : SegMap), segmentMask := c - 1,
            maxSize := cap, currentSize := 0 } k < c := by
        have hle : getSegmentIdx
            { segments := List.replicate c ([] : SegMap), segmentMask := c - 1,
              maxSize := cap, currentSize := 0 } k ≤ c - 1 := Nat.and_le_right
        omega
      have hlt : getSegmentIdx
          { segments := List.replicate c ([] : SegMap), segmentMask := c - 1,
            maxSize := cap, currentSize := 0 } k
          < (List.replicate c ([] : SegMap)).length := by
        rw [List.length_replicate]
        exact hidx
      rw [List.getElem?_eq_getElem hlt, List.getElem_replicate, Option.map_some']
      rfl
    clear hnew
    induction l generalizing s0 with
    | nil =>
      simp only [runPuts, Option.some.injEq] at hrun
      rwa [← hrun]
    | cons x rest ih =>
      obtain ⟨xk, xe, xt⟩ := x
      simp only [runPuts] at hrun
      rcases hp : Put s0 xk xe xt with - | p
      · rw [hp] at hrun
        exact Option.noConfusion hrun
      · rw [hp] at hrun
        have hxk : xk ≠ k := by
          have := hout (xk, xe, xt) (by simp)
          simpa using this
        have h0' : Get p.1 k = some (Except.error StoreErr.keyNotFound) :=
          get_put_preserve s0 p.1 k xk xe xt p.2 (Ne.symm hxk) (by rw [hp]) h0
        exact ih p.1 hrun (fun y hy => hout y (by simp [hy])) h0'
  · exact get_after_put



/-- What `handlePut` stores for an absent key: the fresh entry built from
the (parsed) caller id and the request's measurements, stamped by the
store. -/
theorem handlePut_fresh_stored (s : SegmentedHashTable) (k : String)
    (body : Option RequestData) (t : Int) (s' : SegmentedHashTable)
    (resp : HttpResponse) (e' : DataEntry)
    (hget : Get s k = some (Except.error StoreErr.keyNotFound))
    (hrun : handlePut s k body t = some (s', resp))
    (hget2 : Get s' k = some (Except.ok e')) :
    e' = { freshEntry ((uuidParse (body.getD zeroRequestData).id).getD 0) k
            (body.getD zeroRequestData) with lastUpdated := t } := by
  unfold handlePut at hrun
  rw [hget] at hrun
  dsimp only [Option.bind] at hrun
  rcases hp : Put s k (freshEntry ((uuidParse (body.getD zeroRequestData).id).getD 0) k
      (body.getD zeroRequestData)) t with - | p
  · rw [hp] at hrun
    exact Option.noConfusion hrun
  · rw [hp] at hrun
    obtain ⟨s2, r⟩ := p
    cases r with
    | none =>
      simp only [putOutcome, Option.map_some', Option.some.injEq, Prod.mk.injEq] at hrun
      have hs2 : s2 = s' := hrun.1
      subst hs2
      have := get_after_put s k _ t s2 hp
      rw [hget2] at this
      injection this with this
      injection this with this
    | some err =>
      rcases put_inv s k _ t s2 (some err) hp with ⟨-, hs⟩ | ⟨hc, -⟩
      · subst hs
        cases err with
        | insufficientMemory =>
          simp only [putOutcome, Option.map_some', Option.some.injEq,
            Prod.mk.injEq] at hrun
          rw [← hrun.1] at hget2
          rw [hget] at hget2
          simp at hget2
        | keyNotFound =>
          simp only [putOutcome, Option.map_some', Option.some.injEq,
            Prod.mk.injEq] at hrun
          rw [← hrun.1] at hget2
          rw [hget] at hget2
          simp at hget2
      · exact Option.noConfusion hc

/-- What `handlePut` stores over an existing entry `e`, provided the
stored entry actually changed (`e' ≠ e`, i.e. the put succeeded): the
merge of `e` with the request, stamped by the store. -/
theorem handlePut_existing_stored (s : SegmentedHashTable) (k : String)
    (body : Option RequestData) (t : Int) (s' : SegmentedHashTable)
    (resp : HttpResponse) (e e' : DataEntry)
    (hget : Get s k = some (Except.ok e))
    (hrun : handlePut s k body t = some (s', resp))
    (hget2 : Get s' k = some (Except.ok e'))
    (hne : e' ≠ e) :
    e' = { mergeEntry e (body.getD zeroRequestData) with lastUpdated := t } := by
  unfold handlePut at hrun
  rw [hget] at hrun
  dsimp only [Option.bind] at hrun
  rcases hp : Put s k (mergeEntry e (body.getD zeroRequestData)) t with - | p
  · rw [hp] at hrun
    exact Option.noConfusion hrun
  · rw [hp] at hrun
    obtain ⟨s2, r⟩ := p
    cases r with
    | none =>
      simp only [putOutcome, Option.map_some', Option.some.injEq, Prod.mk.injEq] at hrun
      have hs2 : s2 = s' := hrun.1
      subst hs2
      have := get_after_put s k _ t s2 hp
      rw [hget2] at this
      injection this with this
      injection this with this
    | some err =>
      rcases put_inv s k _ t s2 (some err) hp with ⟨-, hs⟩ | ⟨hc, -⟩
      · subst hs
        cases err with
        | insufficientMemory =>
          simp only [putOutcome, Option.map_some', Option.some.injEq,
            Prod.mk.injEq] at hrun
          rw [← hrun.1, hget] at hget2
          injection hget2 with hget2
          injection hget2 with hget2
          exact absurd hget2.symm hne
        | keyNotFound =>
          simp only [putOutcome, Option.map_some', Option.some.injEq,
            Prod.mk.injEq] at hrun
          rw [← hrun.1, hget] at hget2
          injection hget2 with hget2
          injection hget2 with hget2
          exact absurd hget2.symm hne
      · exact Option.noConfusion hc

/-- **C6** (amended: the "+1 exactly" clause holds for stored counters
below `2^63 - 1`; `modificationCount` is a Go 64-bit `int`, so the update
from `2^63 - 1` wraps to `-2^63` — a decrement — see the counterexample):
in a sequential handler update flow, the entry stored by the first
successful update of a key has `modificationCount = 1`, and a successful
update over an existing entry whose counter is in int64 range and below
the maximum stores exactly its `modificationCount + 1` (the hypothesis
`e' ≠ e` says the store write happened: a rejected put leaves the old
entry, and a successful one always changes the counter). -/
theorem modification_count_semantics :
    (∀ (s : SegmentedHashTable) (k : String) (body : Option RequestData)
        (t : Int) (s' : SegmentedHashTable) (resp : HttpResponse) (e' : DataEntry),
      Get s k = some (Except.error StoreErr.keyNotFound) →
      handlePut s k body t = some (s', resp) →
      Get s' k = some (Except.ok e') →
      e'.modificationCount = 1) ∧
    (∀ (s : SegmentedHashTable) (k : String) (body : Option RequestData)
        (t : Int) (s' : SegmentedHashTable) (resp : HttpResponse) (e e' : DataEntry),
      Get s k = some (Except.ok e) →
      -(2 ^ 63) ≤ e.modificationCount → e.modificationCount < 2 ^ 63 - 1 →
      handlePut s k body t = some (s', resp) →
      Get s' k = some (Except.ok e') → e' ≠ e →
      e'.modificationCount = e.modificationCount + 1) := by
  constructor
  · intro s k body t s' resp e' hget hrun hget2
    rw [handlePut_fresh_stored s k body t s' resp e' hget hrun hget2]
    rfl
  · intro s k body t s' resp e e' hget hlo hhi hrun hget2 hne
    rw [handlePut_existing_stored s k body t s' resp e e' hget hrun hget2 hne]
    show wrapI64 (e.modificationCount + 1) = e.modificationCount + 1
    have e63 : (2 : Int) ^ 63 = 9223372036854775808 := by norm_num
    rw [e63] at hlo hhi
    exact wrapI64_eq_self _ (by omega) (by omega)

def req1 : RequestData :=
  { id := "00000000-0000-0000-0000-000000000000"
    seismicActivity := 5, temperatureC := 6, radiationLevel := 7 }

def req2 : RequestData :=
  { id := "11111111-2222-3333-4444-555555555555"
    seismicActivity := 8, temperatureC := 9, radiationLevel := 10 }

def c6e1 : DataEntry :=
  { id := 0, seismicActivity := 5, temperatureC := 6, radiationLevel := 7
    locationId := "A-1", modificationCount := 1, lastUpdated := 5 }

def c6e2 : DataEntry :=
  { id := 0, seismicActivity := 8, temperatureC := 9, radiationLevel := 10
    locationId := "A-1", modificationCount := 2, lastUpdated := 9 }

def c6s1 : SegmentedHashTable :=
  { segments := (List.replicate 16 ([] : SegMap)).set 6 [("A-1", c6e1)]
    segmentMask := 15, maxSize := 1000, currentSize := 119 }

def c6s2 : SegmentedHashTable :=
  { segments := (List.replicate 16 ([] : SegMap)).set 6 [("A-1", c6e2)]
    segmentMask := 15, maxSize := 1000, currentSize := 238 }

/-- Witness for C6: a concrete create (counter 1) followed by a concrete
update (counter 2) through the handler. -/
theorem modification_count_semantics_witness :
    c6e1.modificationCount = 1 ∧
    c6e2.modificationCount = c6e1.modificationCount + 1 :=
  ⟨modification_count_semantics.1 (store16 1000) "A-1" (some req1) 5 c6s1
      { status := some 201 } c6e1 (by decide) (by decide) (by decide),
   modification_count_semantics.2 c6s1 "A-1" (some req2) 9 c6s2
      { status := some 201 } c6e1 c6e2 (by decide) (by norm_num [c6e1])
      (by norm_num [c6e1]) (by decide) (by decide) (by decide)⟩

/-- The stored entry at `"A-1"` whose counter sits at the int64 maximum
`2^63 - 1` — the state one more handler update away from the wrap
(reachable, per the claim's own increments, after `2^63 - 2` sequential
updates from creation). -/
def c6eMax : DataEntry :=
  { id := 0, seismicActivity := 5, temperatureC := 6, radiationLevel := 7
    locationId := "A-1", modificationCount := 9223372036854775807, lastUpdated := 5 }

/-- A 16-segment store holding `c6eMax` under `"A-1"`. -/
def c6sMax : SegmentedHashTable :=
  { segments := (List.replicate 16 ([] : SegMap)).set 6 [("A-1", c6eMax)]
    segmentMask := 15, maxSize := 1000, currentSize := 119 }

/-- The entry the handler stores over `c6eMax`: the 64-bit `++` wraps the
counter to `-2^63`. -/
def c6eWrap : DataEntry :=
  { id := 0, seismicActivity := 8, temperatureC := 9, radiationLevel := 10
    locationId := "A-1", modificationCount := -9223372036854775808, lastUpdated := 9 }

/-- The store after that update (the usage counter grows by 119 because of
the overwrite-accounting bug demonstrated for C1; irrelevant here). -/
def c6sWrap : SegmentedHashTable :=
  { segments := (List.replicate 16 ([] : SegMap)).set 6 [("A-1", c6eWrap)]
    segmentMask := 15, maxSize := 1000, currentSize := 238 }

/-- Counterexample to C6 as stated: a successful sequential handler update
over the entry whose stored counter is `2^63 - 1` — the value the claim's
own "+1 per update" regime reaches after `2^63 - 2` updates from creation
— stores `-2^63`, not `2^63 - 1 + 1`: the 64-bit counter is *decremented*
by the wrap, with no deletion or recreation involved. -/
theorem modification_count_wrap_counterexample :
    Get c6sMax "A-1" = some (Except.ok c6eMax) ∧
    c6eMax.modificationCount = 9223372036854775807 ∧
    handlePut c6sMax "A-1" (some req2) 9 = some (c6sWrap, { status := some 201 }) ∧
    Get c6sWrap "A-1" = some (Except.ok c6eWrap) ∧
    c6eWrap.modificationCount = -9223372036854775808 ∧
    c6eWrap.modificationCount ≠ c6eMax.modificationCount + 1 ∧
    c6eWrap.modificationCount < c6eMax.modificationCount :=
  ⟨by decide, by decide, by decide, by decide, by decide, by decide, by decide⟩

/-- **C8**: a handler update over an existing entry keeps the stored
entry's `id` and `locationId` — for every caller-supplied body id,
including one different from the stored id, which the flow never reads on
this path — and changes exactly the three measurement fields (to the
request's values), the modification counter (by the 64-bit `int`
increment, i.e. `wrapI64 (· + 1)`, which is `+1` everywhere except at the
int64 maximum) and the store-stamped `lastUpdated`; the conjunction lists
every field of the entry, so nothing else differs. -/
theorem update_preserves_identity (s : SegmentedHashTable) (k : String)
    (req : RequestData) (t : Int) (s' : SegmentedHashTable)
    (resp : HttpResponse) (e e' : DataEntry)
    (hget : Get s k = some (Except.ok e))
    (hrun : handlePut s k (some req) t = some (s', resp))
    (hget2 : Get s' k = some (Except.ok e'))
    (hne : e' ≠ e) :
    e'.id = e.id ∧ e'.locationId = e.locationId ∧
    e'.seismicActivity = req.seismicActivity ∧
    e'.temperatureC = req.temperatureC ∧
    e'.radiationLevel = req.radiationLevel ∧
    e'.modificationCount = wrapI64 (e.modificationCount + 1) ∧
    e'.lastUpdated = t := by
  rw [handlePut_existing_stored s k (some req) t s' resp e e' hget hrun hget2 hne]
  exact ⟨rfl, rfl, rfl, rfl, rfl, rfl, rfl⟩

/-- Witness for C8: the concrete update of `c6s1` by `req2` (whose id
differs from the stored zero UUID) preserves id and location. -/
theorem update_preserves_identity_witness :
    c6e2.id = c6e1.id ∧ c6e2.locationId = c6e1.locationId ∧
    c6e2.seismicActivity = req2.seismicActivity ∧
    c6e2.temperatureC = req2.temperatureC ∧
    c6e2.radiationLevel = req2.radiationLevel ∧
    c6e2.modificationCount = wrapI64 (c6e1.modificationCount + 1) ∧
    c6e2.lastUpdated = 9 :=
  update_preserves_identity c6s1 "A-1" req2 9 c6s2 { status := some 201 }
    c6e1 c6e2 (by decide) (by decide) (by decide) (by decide)

def c7s1 : SegmentedHashTable :=
  { segments := (List.replicate 16 ([] : SegMap)).set 6
      [("A-1", { entryA with lastUpdated := 3 })]
    segmentMask := 15, maxSize := 300, currentSize := 119 }

/-- Witness for C7: after putting `"A-1"` into a fresh store, `"B-2"` is
not found, and `"A-1"` comes back with the store-stamped timestamp. -/
theorem get_semantics_witness :
    Get c7s1 "B-2" = some (Except.error StoreErr.keyNotFound) ∧
    Get c7s1 "A-1" = some (Except.ok { entryA with lastUpdated := 3 }) :=
  ⟨get_semantics.1 16 300 [("A-1", entryA, 3)] "B-2" (store16 300) c7s1
      (by norm_num) (by norm_num) (by decide) (by decide) (by decide),
   get_semantics.2 (store16 300) "A-1" entryA 3 c7s1 (by decide)⟩



/-! ## C9: the byte pool -/

/-- A Go `[]byte`: `mem` is the backing array from the slice's start
through its capacity (so `cap b = b.mem.length`) and `len` is the slice
length. -/
structure GoBytes where
  mem : List Nat
  len : Nat
deriving DecidableEq, Repr

/-- Go `cap(*b)`. -/
def bcap (b : GoBytes) : Nat := b.mem.length

/-- `BytePool.Put` (`api_server.go` lines 170–183): a buffer whose
capacity is below the pool's size is discarded (`none`, not pooled);
otherwise it is resliced to `size` (`*b = (*b)[:p.size]`) and the zeroing
loop overwrites its first `size` bytes before it is pooled. -/
def bytePoolPut (size : Nat) (b : GoBytes) : Option GoBytes :=
  if bcap b < size then none
  else some { mem := List.replicate size 0 ++ b.mem.drop size, len := size }

/-- The pool's `New` function: a freshly allocated zero-filled buffer
(`make([]byte, size)`). -/
def newBuf (size : Nat) : GoBytes := { mem := List.replicate size 0, len := size }

/-- The pool's free list after a `Put`: unchanged if the buffer was
discarded, else extended with the zeroed buffer (`sync.Pool` may retain
buffers in any order; the list tracks the available ones). -/
def poolPut (size : Nat) (pool : List GoBytes) (b : GoBytes) : List GoBytes :=
  match bytePoolPut size b with
  | none => pool
  | some b2 => b2 :: pool

/-- `BytePool.Get`: a pooled buffer if one is available, else a fresh
zero-filled one from `New`. -/
def poolGet (size : Nat) (pool : List GoBytes) : GoBytes × List GoBytes :=
  match pool with
  | [] => (newBuf size, [])
  | b :: rest => (b, rest)

/-- The buffer is a full-length slice of the pool's size with every one
of its `size` bytes zero. -/
def zeroedBuf (size : Nat) (b : GoBytes) : Prop :=
  b.len = size ∧ b.mem.take size = List.replicate size 0

instance (size : Nat) (b : GoBytes) : Decidable (zeroedBuf size b) := by
  unfold zeroedBuf
  infer_instance

/-- **C9**: (1) a buffer with capacity below the pool's declared size is
discarded and never pooled; (2) a pooled buffer has been truncated to
length `size` with every one of its `size` bytes zero; (3) consequently,
starting from any pool whose buffers are zeroed (as all are: `New` makes
zero-filled ones and `Put` zeroes before pooling), after any `put` every
pooled buffer is zeroed and a subsequent `get` hands out an all-zero
buffer — never the previous user's contents. -/
theorem byte_pool_zeroing :
    (∀ (size : Nat) (b : GoBytes), bcap b < size → bytePoolPut size b = none) ∧
    (∀ (size : Nat) (b b2 : GoBytes), bytePoolPut size b = some b2 →
      size ≤ bcap b ∧ zeroedBuf size b2) ∧
    (∀ (size : Nat) (pool : List GoBytes) (b : GoBytes),
      (∀ x ∈ pool, zeroedBuf size x) →
      (∀ x ∈ poolPut size pool b, zeroedBuf size x) ∧
      zeroedBuf size (poolGet size (poolPut size pool b)).1) := by
  have h2 : ∀ (size : Nat) (b b2 : GoBytes), bytePoolPut size b = some b2 →
      size ≤ bcap b ∧ zeroedBuf size b2 := by
    intro size b b2 h
    unfold bytePoolPut at h
    split at h
    · exact Option.noConfusion h
    · rename_i hc
      push_neg at hc
      injection h with h
      subst h
      exact ⟨hc, rfl, List.take_left' (List.length_replicate _ _)⟩
  refine ⟨?_, h2, ?_⟩
  · intro size b h
    unfold bytePoolPut
    rw [if_pos h]
  · intro size pool b hpool
    unfold poolPut
    rcases hb : bytePoolPut size b with - | b2
    · refine ⟨hpool, ?_⟩
      unfold poolGet
      cases pool with
      | nil =>
        refine ⟨rfl, ?_⟩
        simp [newBuf, List.take_replicate]
      | cons x rest => exact hpool x (by simp)
    · have hz := h2 size b b2 hb
      refine ⟨?_, hz.2⟩
      intro x hx
      rcases List.mem_cons.mp hx with rfl | hx2
      · exact hz.2
      · exact hpool x hx2

/-- Witness for C9 on concrete buffers: a too-small buffer is discarded;
a dirty 3-byte buffer is pooled as the zeroed 2-byte slice `[0, 0]`. -/
theorem byte_pool_zeroing_witness :
    bytePoolPut 2 { mem := [7], len := 1 } = none ∧
    (2 ≤ bcap { mem := [7, 7, 7], len := 3 } ∧
      zeroedBuf 2 { mem := [0, 0, 7], len := 2 }) ∧
    ((∀ x ∈ poolPut 2 [newBuf 2] { mem := [7, 7, 7], len := 3 }, zeroedBuf 2 x) ∧
      zeroedBuf 2 (poolGet 2 (poolPut 2 [newBuf 2] { mem := [7, 7, 7], len := 3 })).1) :=
  ⟨byte_pool_zeroing.1 2 { mem := [7], len := 1 } (by decide),
   byte_pool_zeroing.2.1 2 { mem := [7, 7, 7], len := 3 } { mem := [0, 0, 7], len := 2 }
     (by decide),
   byte_pool_zeroing.2.2 2 [newBuf 2] { mem := [7, 7, 7], len := 3 } (by decide)⟩

end BigO
